import Mathlib

/-!
Verification of the chunked concurrent upload engine of gostratum/storagex
(`internal/s3/multipart.go` and the data model in `storage.go`).

The Go code is shallowly embedded:
* pure computations (config clamping, the part-number renumbering in
  `CompleteMultipart`, the exchange sort in `uploadParts`) become Lean
  functions over `Int`/`Nat`/`List`;
* the source `io.Reader` is modelled as a finite byte list plus a flag
  saying whether, after the bytes are exhausted, the next read fails with a
  non-EOF error (`Source`); `io.ReadFull` semantics are embedded in
  `readFull`;
* the producer goroutine `chunkReader` becomes a recursive function from a
  `Source` to the list of emitted tasks (the `ctx.Done()` branches are the
  never-taken branches when no cancellation occurs, which is the setting of
  the claims analysed here);
* the worker pool and the result channel are modelled by an arrival list of
  `partUploadResult`s: any permutation of the per-task results is a possible
  arrival order, and theorems quantify over it; the collector loop of
  `uploadParts` becomes `collectLoop`, which also counts how many results
  were consumed from the channel;
* The control flow of `Upload`, including the deferred best-effort abort (which
  fires exactly when the named error is non-nil at return), becomes
  `UploadRun`, producing both the returned value and a trace of which store
  calls were made.

Go `int64` fields are embedded as `Int`, byte counts and part numbers as
`Nat` (part numbers are `int32` in Go, but stay far below `2^31` in every
statement here).
-/

namespace Storagex

/-- `storagex.PartETag` (storage.go): a completed part, part number + ETag. -/
structure PartETag where
  PartNumber : Nat
  ETag : String
deriving DecidableEq, Repr

/-- `storagex.MultipartConfig` (storage.go): part size, concurrency, token. -/
structure MultipartConfig where
  PartSizeBytes : Int
  Concurrency : Int
  UploadToken : String
deriving DecidableEq, Repr

/-- `storagex.Stat` (storage.go), the fields the upload path produces. -/
structure Stat where
  Key : String
  Size : Int
  ETag : String
deriving DecidableEq, Repr

/-- The 5 MiB S3 minimum part size (`5<<20` in multipart.go line 45). -/
def minPartSize : Int := 5 * 2 ^ 20

/-- The config-normalisation step of `S3Storage.MultipartUpload`
(multipart.go lines 44-55).  In Go, `cfg` is a pointer and the three
assignments write through it, so the object of the caller ends up equal to the
record returned here.  `freshToken` stands for the `uuid.New().String()`
value used when the caller left `UploadToken` empty. -/
def normalizeConfig (cfg : MultipartConfig) (freshToken : String) : MultipartConfig :=
  let cfg1 := if cfg.PartSizeBytes < minPartSize
              then { cfg with PartSizeBytes := minPartSize } else cfg
  let cfg2 := if cfg1.Concurrency ≤ 0
              then { cfg1 with Concurrency := 4 } else cfg1
  if cfg2.UploadToken = "" then { cfg2 with UploadToken := freshToken } else cfg2

/-- The "plan" of spec §4.1: the effective part size and concurrency
that the rest of the upload uses, i.e. the two numeric fields after
normalisation. -/
def plan (cfg : MultipartConfig) (freshToken : String) : Int × Int :=
  ((normalizeConfig cfg freshToken).PartSizeBytes,
   (normalizeConfig cfg freshToken).Concurrency)

/-! ## The source stream and the Chunker -/

/-- The read error classification the code distinguishes: `io.EOF`,
`io.ErrUnexpectedEOF`, or any other error. -/
inductive ReadErr
  | eof
  | unexpectedEOF
  | other
deriving DecidableEq, Repr

/-- The source `io.Reader`, modelled as the remaining bytes plus whether,
once the bytes run out, the next read returns a non-EOF error instead of
`io.EOF`. -/
structure Source where
  data : List UInt8
  failAtEnd : Bool
deriving DecidableEq, Repr

/-- `io.ReadFull(src, buffer)` with `buffer` of length `partSize`:
returns the bytes read, the error, and the remaining source.
If at least `partSize` bytes remain, the buffer is filled with no error;
otherwise all remaining bytes are read and the underlying end-of-stream
outcome surfaces as `io.ErrUnexpectedEOF` (partial fill), `io.EOF` (empty
fill), or as the underlying read error when the stream fails. -/
def readFull (partSize : Nat) (s : Source) : List UInt8 × Option ReadErr × Source :=
  if partSize ≤ s.data.length then
    (s.data.take partSize, none, ⟨s.data.drop partSize, s.failAtEnd⟩)
  else
    (s.data,
     some (if s.failAtEnd then ReadErr.other
           else if s.data.isEmpty then ReadErr.eof else ReadErr.unexpectedEOF),
     ⟨[], s.failAtEnd⟩)

/-- `partUploadTask` (multipart.go lines 183-186). -/
structure partUploadTask where
  partNumber : Nat
  data : List UInt8
deriving DecidableEq, Repr

theorem readFull_rest_length (partSize : Nat) (s : Source) :
    (readFull partSize s).2.2.data.length ≤ s.data.length := by
  unfold readFull
  split <;> simp [List.length_drop]

/-- `MultipartUploader.chunkReader` (multipart.go lines 221-262) in the
uncancelled execution (`ctx.Done()` never fires): reads `partSize` bytes at
a time, and
* on a read error other than `io.EOF`/`io.ErrUnexpectedEOF`, logs and
  returns without emitting a task for that read (the bytes of the failed
  read are discarded, and no error is signalled to the caller — the task
  channel is simply closed);
* on an empty read, returns;
* otherwise emits the task and continues, stopping after the task whose
  read ended in `io.EOF`/`io.ErrUnexpectedEOF`.
Returns the list of emitted tasks, in emission order. -/
def chunkReader (partSize : Nat) (s : Source) (partNumber : Nat) : List partUploadTask :=
  match h : readFull partSize s with
  | (chunk, err, rest) =>
    if err = some ReadErr.other then []
    else if chunk.length = 0 then []
    else if err = some ReadErr.eof ∨ err = some ReadErr.unexpectedEOF then
      [⟨partNumber, chunk⟩]
    else
      ⟨partNumber, chunk⟩ :: chunkReader partSize rest (partNumber + 1)
termination_by s.data.length
decreasing_by
  rename_i herr1 hlen herr2
  unfold readFull at h
  split at h
  · rename_i hge
    simp only [Prod.mk.injEq] at h
    obtain ⟨hc, he, hr⟩ := h
    subst hr
    simp only [List.length_drop]
    have hp : 0 < partSize := by
      rcases Nat.eq_zero_or_pos partSize with h0 | h0
      · exact absurd (by rw [← hc]; simp [h0]) hlen
      · exact h0
    omega
  · exfalso
    simp only [Prod.mk.injEq] at h
    obtain ⟨hc, he, hr⟩ := h
    rcases hb : s.failAtEnd with _ | _ <;> rw [hb] at he
    · rcases hd : s.data.isEmpty with _ | _ <;> rw [hd] at he <;> simp only [if_neg, if_pos,
        Bool.false_eq_true, if_false, if_true] at he
      · exact herr2 (Or.inr he.symm)
      · exact herr2 (Or.inl he.symm)
    · simp only [if_pos] at he
      exact herr1 he.symm

/-! ## Worker results, the collector loop, and the exchange sort -/

/-- The error taxonomy at the `Upload` boundary: a store/worker error
carrying a message, or one of the three `fmt.Errorf("...: %w", err)` wraps
in `Upload`. -/
inductive UploadError
  | store (msg : String)
  | wrapCreate (e : UploadError)
  | wrapParts (e : UploadError)
  | wrapComplete (e : UploadError)
deriving DecidableEq, Repr

/-- `partUploadResult` (multipart.go lines 189-193). -/
structure partUploadResult where
  partNumber : Nat
  etag : String
  err : Option UploadError
deriving DecidableEq, Repr

/-- The result-collection loop of `uploadParts` (multipart.go lines
144-164), consuming `resultChan` contents in arrival order: on the first
result carrying an error it records the error and breaks (reading nothing
further); otherwise it appends the part to the accumulator.  Returns the
accumulated parts, the recorded error, and how many results were consumed
from the channel. -/
def collectLoop (parts : List PartETag) (consumed : Nat) :
    List partUploadResult → List PartETag × Option UploadError × Nat
  | [] => (parts, none, consumed)
  | r :: rs =>
    match r.err with
    | some e => (parts, some e, consumed + 1)
    | none => collectLoop (parts ++ [⟨r.partNumber, r.etag⟩]) (consumed + 1) rs

/-- The inner loop of the sort in `uploadParts` (multipart.go lines
172-176) for a fixed outer index: `cur` is `parts[i]`, the list is
`parts[i+1..]`; whenever `parts[i].PartNumber > parts[j].PartNumber` the
two entries swap.  Returns the final `parts[i]` and the final
`parts[i+1..]`. -/
def selectScan (cur : PartETag) : List PartETag → PartETag × List PartETag
  | [] => (cur, [])
  | y :: ys =>
    if y.PartNumber < cur.PartNumber then
      let p := selectScan y ys
      (p.1, cur :: p.2)
    else
      let p := selectScan cur ys
      (p.1, y :: p.2)

theorem selectScan_snd_length (cur : PartETag) (l : List PartETag) :
    (selectScan cur l).2.length = l.length := by
  induction l generalizing cur with
  | nil => rfl
  | cons y ys ih =>
    unfold selectScan
    split <;> simp [ih]

/-- The full exchange sort of `uploadParts` (multipart.go lines 170-177):
the outer loop over `i`, each iteration placing the minimum of the
remaining suffix at position `i` via `selectScan`. -/
def sortParts : List PartETag → List PartETag
  | [] => []
  | x :: xs =>
    let p := selectScan x xs
    p.1 :: sortParts p.2
termination_by l => l.length
decreasing_by
  simp [selectScan_snd_length]

/-- `uploadParts` (multipart.go lines 116-180) as a function of the arrival
order of the worker results on `resultChan`: collect until the first error
(returning `nil, uploadErr` in that case) and otherwise sort the collected
parts by part number.  The task-production and worker sides are related to
`results` in the theorems. -/
def uploadParts (results : List partUploadResult) : Except UploadError (List PartETag) :=
  match collectLoop [] 0 results with
  | (_, some e, _) => Except.error e
  | (parts, none, _) => Except.ok (sortParts parts)

/-! ## The store oracle and `Upload` -/

/-- The outcomes of the remote store calls made during one `Upload`:
`createMultipart` yields an upload id or an error; `uploadPart` maps a part
number and payload to an ETag or an error; `completeMultipart` maps the
ordered ETag list to a `Stat` or an error.  (The abort outcome is only
logged by the code and does not influence anything observed here.) -/
structure Store where
  createMultipart : Except String String
  uploadPart : Nat → List UInt8 → Except String String
  completeMultipart : List String → Except String Stat

/-- The handling of one task by one worker (multipart.go lines 205-215): call
`uploadPart` and emit exactly one result for the part number of the task — the
ETag on success, the error otherwise. -/
def workerResult (store : Store) (t : partUploadTask) : partUploadResult :=
  match store.uploadPart t.partNumber t.data with
  | Except.ok etag => ⟨t.partNumber, etag, none⟩
  | Except.error e => ⟨t.partNumber, "", some (UploadError.store e)⟩

/-- The multiset of results the worker pool produces for the emitted
tasks, in task order; any permutation of this list is a possible arrival
order on `resultChan`. -/
def workerResults (store : Store) (tasks : List partUploadTask) : List partUploadResult :=
  tasks.map (workerResult store)

/-- What one `Upload` call did: the value it returned and which store
calls it made.  `completedEtags` is the ETag list passed to
`CompleteMultipart` when that call was made. -/
structure UploadTrace where
  result : Except UploadError Stat
  completeCalls : Nat
  abortCalls : Nat
  putCalls : Nat
  completedEtags : Option (List String)
deriving Repr

/-- `MultipartUploader.Upload` (multipart.go lines 68-113) given the
arrival order `results` of the worker results: create the remote upload
(wrapping a failure and stopping), run `uploadParts`, extract the ETags in
collected order (dropping the part numbers), and complete.  The deferred
cleanup (lines 78-87) calls `AbortMultipart` exactly when the named
`err` is non-nil on return — including when `CompleteMultipart` itself
failed.  The code contains no call to `Put`, so `putCalls` is `0` on every
path. -/
def UploadRun (store : Store) (results : List partUploadResult) : UploadTrace :=
  match store.createMultipart with
  | Except.error e =>
      ⟨Except.error (UploadError.wrapCreate (UploadError.store e)), 0, 0, 0, none⟩
  | Except.ok _uploadID =>
    match uploadParts results with
    | Except.error e =>
        ⟨Except.error (UploadError.wrapParts e), 0, 1, 0, none⟩
    | Except.ok parts =>
      let etags := parts.map PartETag.ETag
      match store.completeMultipart etags with
      | Except.error e =>
          ⟨Except.error (UploadError.wrapComplete (UploadError.store e)), 1, 1, 0, some etags⟩
      | Except.ok stat =>
          ⟨Except.ok stat, 1, 0, 0, some etags⟩

/-- `Upload` under the in-order arrival schedule (workers report in task
order): the composition of `chunkReader`, the worker pool and `UploadRun`.
One of the schedules quantified over elsewhere; used to evaluate the
pipeline on concrete inputs. -/
def UploadSeq (store : Store) (partSize : Nat) (src : Source) : UploadTrace :=
  UploadRun store (workerResults store (chunkReader partSize src 1))

/-! ## Planner lemmas and claims about planning (C5, C8, C9) -/

theorem normalizeConfig_PartSizeBytes (cfg : MultipartConfig) (tok : String) :
    (normalizeConfig cfg tok).PartSizeBytes
      = if cfg.PartSizeBytes < minPartSize then minPartSize else cfg.PartSizeBytes := by
  unfold normalizeConfig
  dsimp only
  split_ifs <;> rfl

theorem normalizeConfig_Concurrency (cfg : MultipartConfig) (tok : String) :
    (normalizeConfig cfg tok).Concurrency
      = if cfg.Concurrency ≤ 0 then 4 else cfg.Concurrency := by
  unfold normalizeConfig
  dsimp only
  split_ifs <;> rfl

theorem normalizeConfig_UploadToken (cfg : MultipartConfig) (tok : String) :
    (normalizeConfig cfg tok).UploadToken
      = if cfg.UploadToken = "" then tok else cfg.UploadToken := by
  unfold normalizeConfig
  dsimp only
  split_ifs <;> rfl

/-- C5 counterexample: the claim says a requested part size above the store
maximum (5 GiB for S3, as the `MultipartConfig` doc comment itself states)
is clamped down to the maximum; but for a requested 6 GiB the code keeps
6 GiB, which exceeds the maximum. -/
theorem planKeepsOversizedPartSize :
    (normalizeConfig ⟨6 * 2 ^ 30, 4, "t"⟩ "u").PartSizeBytes = 6 * 2 ^ 30 ∧
    ¬ (normalizeConfig ⟨6 * 2 ^ 30, 4, "t"⟩ "u").PartSizeBytes ≤ 5 * 2 ^ 30 := by
  rw [normalizeConfig_PartSizeBytes]
  norm_num [minPartSize]

/-- C5 (amended): the planner always returns a usable plan with no error
condition — a part size below the 5 MiB store minimum is clamped up to the
minimum, a concurrency ≤ 0 is replaced by 4, and the resulting plan always
has part size ≥ 5 MiB and positive concurrency; a part size above the store
maximum is left unchanged (there is no downward clamping). -/
theorem planClampsUpOnly (cfg : MultipartConfig) (tok : String) :
    ((normalizeConfig cfg tok).PartSizeBytes
      = if cfg.PartSizeBytes < minPartSize then minPartSize else cfg.PartSizeBytes) ∧
    ((normalizeConfig cfg tok).Concurrency
      = if cfg.Concurrency ≤ 0 then 4 else cfg.Concurrency) ∧
    minPartSize ≤ (normalizeConfig cfg tok).PartSizeBytes ∧
    0 < (normalizeConfig cfg tok).Concurrency ∧
    (minPartSize < cfg.PartSizeBytes →
      (normalizeConfig cfg tok).PartSizeBytes = cfg.PartSizeBytes) := by
  rw [normalizeConfig_PartSizeBytes, normalizeConfig_Concurrency]
  refine ⟨rfl, rfl, ?_, ?_, ?_⟩ <;> split_ifs <;> omega

/-- C5 amended-claim witness at a concrete config. -/
theorem planClampsUpOnlyInstance :
    ((normalizeConfig ⟨1, 0, ""⟩ "tok").PartSizeBytes
      = if (1 : Int) < minPartSize then minPartSize else 1) ∧
    ((normalizeConfig ⟨1, 0, ""⟩ "tok").Concurrency = if (0 : Int) ≤ 0 then 4 else 0) ∧
    minPartSize ≤ (normalizeConfig ⟨1, 0, ""⟩ "tok").PartSizeBytes ∧
    0 < (normalizeConfig ⟨1, 0, ""⟩ "tok").Concurrency ∧
    (minPartSize < 1 → (normalizeConfig ⟨1, 0, ""⟩ "tok").PartSizeBytes = 1) :=
  planClampsUpOnly ⟨1, 0, ""⟩ "tok"

/-- C8: planning is deterministic — the effective part size and concurrency
depend only on the requested part size and requested concurrency; two
configs agreeing on those two fields (whatever their tokens, and whatever
fresh tokens are drawn) yield the same plan. -/
theorem planDeterministic (c1 c2 : MultipartConfig) (t1 t2 : String)
    (hps : c1.PartSizeBytes = c2.PartSizeBytes)
    (hcc : c1.Concurrency = c2.Concurrency) :
    plan c1 t1 = plan c2 t2 := by
  unfold plan
  rw [normalizeConfig_PartSizeBytes, normalizeConfig_Concurrency,
      normalizeConfig_PartSizeBytes, normalizeConfig_Concurrency, hps, hcc]

/-- C8 witness: two configs equal on the two numeric fields but with
different tokens and different fresh tokens plan identically. -/
theorem planDeterministicInstance :
    plan ⟨1, 0, "a"⟩ "t1" = plan ⟨1, 0, "b"⟩ "t2" :=
  planDeterministic ⟨1, 0, "a"⟩ ⟨1, 0, "b"⟩ "t1" "t2" rfl rfl

/-- C9: `MultipartUpload` rewrites the caller-supplied config in place
(`cfg` is a pointer in Go and the three assignments in lines 44-55 write
through it): the part size field becomes the clamped value, the concurrency
field becomes the default when non-positive, the token field becomes the
freshly generated UUID when empty — and a config needing any of these
updates is not left unchanged. -/
theorem multipartUploadMutatesConfig (cfg : MultipartConfig) (tok : String) :
    (cfg.PartSizeBytes < minPartSize →
      (normalizeConfig cfg tok).PartSizeBytes = minPartSize ∧
      normalizeConfig cfg tok ≠ cfg) ∧
    (cfg.Concurrency ≤ 0 →
      (normalizeConfig cfg tok).Concurrency = 4) ∧
    (cfg.UploadToken = "" →
      (normalizeConfig cfg tok).UploadToken = tok) ∧
    (cfg.UploadToken = "" → tok ≠ "" → normalizeConfig cfg tok ≠ cfg) := by
  refine ⟨fun h => ⟨?_, ?_⟩, fun h => ?_, fun h => ?_, fun h hne => ?_⟩
  · rw [normalizeConfig_PartSizeBytes, if_pos h]
  · intro heq
    have := congrArg MultipartConfig.PartSizeBytes heq
    rw [normalizeConfig_PartSizeBytes, if_pos h] at this
    omega
  · rw [normalizeConfig_Concurrency, if_pos h]
  · rw [normalizeConfig_UploadToken, if_pos h]
  · intro heq
    have := congrArg MultipartConfig.UploadToken heq
    rw [normalizeConfig_UploadToken, if_pos h, h] at this
    exact hne this

/-- C9 witness: a config with undersized part size, non-positive
concurrency and empty token is rewritten in all three fields. -/
theorem multipartUploadMutatesConfigInstance :
    (((⟨1, 0, ""⟩ : MultipartConfig).PartSizeBytes < minPartSize →
      (normalizeConfig ⟨1, 0, ""⟩ "fresh").PartSizeBytes = minPartSize ∧
      normalizeConfig ⟨1, 0, ""⟩ "fresh" ≠ ⟨1, 0, ""⟩) ∧
    ((⟨1, 0, ""⟩ : MultipartConfig).Concurrency ≤ 0 →
      (normalizeConfig ⟨1, 0, ""⟩ "fresh").Concurrency = 4) ∧
    ((⟨1, 0, ""⟩ : MultipartConfig).UploadToken = "" →
      (normalizeConfig ⟨1, 0, ""⟩ "fresh").UploadToken = "fresh") ∧
    ((⟨1, 0, ""⟩ : MultipartConfig).UploadToken = "" → "fresh" ≠ "" →
      normalizeConfig ⟨1, 0, ""⟩ "fresh" ≠ ⟨1, 0, ""⟩)) ∧
    (⟨1, 0, ""⟩ : MultipartConfig).PartSizeBytes < minPartSize ∧
    (⟨1, 0, ""⟩ : MultipartConfig).UploadToken = "" ∧
    ("fresh" : String) ≠ "" :=
  ⟨multipartUploadMutatesConfig ⟨1, 0, ""⟩ "fresh",
   by norm_num [minPartSize], rfl, by decide⟩

/-! ## `CompleteMultipart` renumbering (C10) -/

/-- `types.CompletedPart`, the per-part record sent to the store at
completion time. -/
structure CompletedPart where
  ETag : String
  PartNumber : Nat
deriving DecidableEq, Repr

/-- The loop body of `CompleteMultipart` (multipart.go lines 379-385),
`for i, etag := range etags`: entry `i` gets part number `i + 1`.  The
index accumulator `i` is explicit. -/
def completedPartsFrom (i : Nat) : List String → List CompletedPart
  | [] => []
  | e :: es => ⟨e, i + 1⟩ :: completedPartsFrom (i + 1) es

/-- The completed-part list `CompleteMultipart` builds from the ETag list
it receives (which `Upload` produced by dropping the part numbers,
multipart.go lines 96-99). -/
def completedParts (etags : List String) : List CompletedPart :=
  completedPartsFrom 0 etags

theorem completedPartsFrom_spec (l : List String) :
    ∀ i, (completedPartsFrom i l).map CompletedPart.PartNumber
            = List.range' (i + 1) l.length ∧
         (completedPartsFrom i l).map CompletedPart.ETag = l := by
  induction l with
  | nil => intro i; simp [completedPartsFrom]
  | cons e es ih =>
    intro i
    simp only [completedPartsFrom, List.map_cons, List.length_cons, List.range'_succ]
    exact ⟨by rw [(ih (i + 1)).1], by rw [(ih (i + 1)).2]⟩

/-- C10: the remote completion call discards the collected part numbers
and renumbers positionally — for every ETag list of length n, the
completed-part list sent to the store carries part numbers exactly 1..n
assigned by slice index, with the ETags kept in slice order. -/
theorem completeMultipartRenumbersPositionally (etags : List String) :
    (completedParts etags).map CompletedPart.PartNumber
        = List.range' 1 etags.length ∧
    (completedParts etags).map CompletedPart.ETag = etags :=
  completedPartsFrom_spec etags 0

/-! ## Concrete stores used to evaluate the pipeline -/

/-- A store on which every call succeeds: the upload id is `"uid"`, every
part upload returns the ETag `"E"`, completion returns a fixed `Stat`. -/
def okStore : Store where
  createMultipart := Except.ok "uid"
  uploadPart := fun _ _ => Except.ok "E"
  completeMultipart := fun _ => Except.ok ⟨"k", 8, "final"⟩

/-- A store on which part uploads succeed but the final completion call
fails. -/
def completeFailStore : Store where
  createMultipart := Except.ok "uid"
  uploadPart := fun _ _ => Except.ok "E"
  completeMultipart := fun _ => Except.error "complete-fail"

/-! ## Collector and sort lemmas -/

theorem sortParts_nil : sortParts [] = [] := by rw [sortParts]

theorem sortParts_cons (x : PartETag) (xs : List PartETag) :
    sortParts (x :: xs) = (selectScan x xs).1 :: sortParts (selectScan x xs).2 := by
  rw [sortParts]

/-- The collector loop on an error-free arrival list consumes every result
and accumulates the parts in arrival order. -/
theorem collectLoop_all_ok (rs : List partUploadResult) (h : ∀ x ∈ rs, x.err = none) :
    ∀ parts consumed, collectLoop parts consumed rs
      = (parts ++ rs.map (fun r => ⟨r.partNumber, r.etag⟩), none, consumed + rs.length) := by
  induction rs with
  | nil => intro parts consumed; simp [collectLoop]
  | cons r rs ih =>
    intro parts consumed
    have hr : r.err = none := h r (by simp)
    simp only [collectLoop, hr]
    rw [ih (fun x hx => h x (by simp [hx]))]
    simp only [Prod.mk.injEq, List.map_cons, List.length_cons]
    refine ⟨by simp, by trivial, by omega⟩

/-- The collector loop stops at the first result carrying an error, having
consumed exactly the error-free results before it plus the error itself. -/
theorem collectLoop_first_err (pre : List partUploadResult)
    (r : partUploadResult) (e : UploadError) (post : List partUploadResult)
    (hpre : ∀ x ∈ pre, x.err = none) (hr : r.err = some e) :
    ∀ parts consumed, collectLoop parts consumed (pre ++ r :: post)
      = (parts ++ pre.map (fun x => ⟨x.partNumber, x.etag⟩), some e,
         consumed + pre.length + 1) := by
  induction pre with
  | nil => intro parts consumed; simp [collectLoop, hr]
  | cons p ps ih =>
    intro parts consumed
    have hp : p.err = none := hpre p (by simp)
    simp only [List.cons_append, collectLoop, hp, List.append_eq]
    rw [ih (fun x hx => hpre x (by simp [hx]))]
    simp only [Prod.mk.injEq, List.map_cons, List.length_cons]
    refine ⟨by simp, by trivial, by omega⟩

/-- Whether an `Except` result is a success. -/
def exceptIsOk {α β : Type} : Except α β → Bool
  | Except.ok _ => true
  | Except.error _ => false

/-- Whether an upload outcome is the wrap of a part-upload failure. -/
def isWrapParts : Except UploadError Stat → Bool
  | Except.error (UploadError.wrapParts _) => true
  | _ => false

/-- Whether an upload outcome is the wrap of a completion failure. -/
def isWrapComplete : Except UploadError Stat → Bool
  | Except.error (UploadError.wrapComplete _) => true
  | _ => false

/-- The Chunker emits no task when the source holds no bytes, whatever the
part size and whether the stream ends in EOF or in a read error. -/
theorem chunkReader_empty (ps k : Nat) (s : Source) (h : s.data = []) :
    chunkReader ps s k = [] := by
  rcases s with ⟨d, b⟩
  simp only at h
  subst h
  rw [chunkReader]
  cases b <;> simp [readFull] <;> split_ifs <;> simp

/-! ## C1: a stream read failure silently truncates the upload -/

/-- C1 (evaluating the code at the failing input): on a source that yields
8 bytes and then fails with a non-EOF read error, the Chunker emits the two
tasks for the bytes read, discards the error (it only logs it; no side
channel to the Session exists), and the pipeline then completes the
multipart upload successfully with just those parts — the upload of only
the bytes read so far is reported as a success and no abort happens,
contradicting the claim that a stream read failure always fails the upload
and triggers abort. -/
theorem truncatedStreamCompletesUpload :
    chunkReader 4 ⟨[0, 0, 0, 0, 0, 0, 0, 0], true⟩ 1
      = [⟨1, [0, 0, 0, 0]⟩, ⟨2, [0, 0, 0, 0]⟩] ∧
    (UploadSeq okStore 4 ⟨[0, 0, 0, 0, 0, 0, 0, 0], true⟩).result
      = Except.ok ⟨"k", 8, "final"⟩ ∧
    (UploadSeq okStore 4 ⟨[0, 0, 0, 0, 0, 0, 0, 0], true⟩).completeCalls = 1 ∧
    (UploadSeq okStore 4 ⟨[0, 0, 0, 0, 0, 0, 0, 0], true⟩).abortCalls = 0 := by
  refine ⟨?_, ?_, ?_, ?_⟩ <;>
    simp [UploadSeq, UploadRun, okStore, workerResults, workerResult, uploadParts,
          collectLoop, sortParts, selectScan, chunkReader, readFull]

/-! ## C2: finalisation calls -/

/-- C2 counterexample: when the final completion call fails after all parts
succeeded, the deferred cleanup sees the non-nil error and calls abort as
well — both `CompleteMultipart` and `AbortMultipart` are called for the
same session, refuting both "never both" and "abort is not called on
completion failure" (the completion error is still the one surfaced). -/
theorem abortCalledAfterCompleteFailure :
    (UploadSeq completeFailStore 4 ⟨[0, 0, 0, 0], false⟩).completeCalls = 1 ∧
    (UploadSeq completeFailStore 4 ⟨[0, 0, 0, 0], false⟩).abortCalls = 1 ∧
    (UploadSeq completeFailStore 4 ⟨[0, 0, 0, 0], false⟩).result
      = Except.error (UploadError.wrapComplete (UploadError.store "complete-fail")) := by
  refine ⟨?_, ?_, ?_⟩ <;>
    simp [UploadSeq, UploadRun, completeFailStore, workerResults, workerResult, uploadParts,
          collectLoop, sortParts, selectScan, chunkReader, readFull]

/-- C2 (amended): for every session whose remote creation succeeded,
`CompleteMultipart` is called at most once and `AbortMultipart` at most
once, and at least one of them is called; the three possible outcomes are
success (complete only), part-upload failure (abort only), and completion
failure, in which the completion error is surfaced and abort is
additionally called. -/
theorem finalizeAtMostOnceEach (store : Store) (results : List partUploadResult)
    (uid : String) (hcreate : store.createMultipart = Except.ok uid) :
    ((UploadRun store results).completeCalls = 1 ∧
     (UploadRun store results).abortCalls = 0 ∧
     exceptIsOk (UploadRun store results).result = true) ∨
    ((UploadRun store results).completeCalls = 0 ∧
     (UploadRun store results).abortCalls = 1 ∧
     isWrapParts (UploadRun store results).result = true) ∨
    ((UploadRun store results).completeCalls = 1 ∧
     (UploadRun store results).abortCalls = 1 ∧
     isWrapComplete (UploadRun store results).result = true) := by
  unfold UploadRun
  rw [hcreate]
  cases hup : uploadParts results with
  | error e => right; left; simp [isWrapParts]
  | ok parts =>
    dsimp only
    cases hcm : store.completeMultipart (List.map PartETag.ETag parts) with
    | error e => right; right; simp [isWrapComplete]
    | ok stat => left; simp [exceptIsOk]

/-- C2 witness: the amended theorem applied to the store whose completion
call fails, with one successful part result. -/
theorem finalizeAtMostOnceEachInstance :
    ((UploadRun completeFailStore [⟨1, "E", none⟩]).completeCalls = 1 ∧
     (UploadRun completeFailStore [⟨1, "E", none⟩]).abortCalls = 0 ∧
     exceptIsOk (UploadRun completeFailStore [⟨1, "E", none⟩]).result = true) ∨
    ((UploadRun completeFailStore [⟨1, "E", none⟩]).completeCalls = 0 ∧
     (UploadRun completeFailStore [⟨1, "E", none⟩]).abortCalls = 1 ∧
     isWrapParts (UploadRun completeFailStore [⟨1, "E", none⟩]).result = true) ∨
    ((UploadRun completeFailStore [⟨1, "E", none⟩]).completeCalls = 1 ∧
     (UploadRun completeFailStore [⟨1, "E", none⟩]).abortCalls = 1 ∧
     isWrapComplete (UploadRun completeFailStore [⟨1, "E", none⟩]).result = true) :=
  finalizeAtMostOnceEach completeFailStore [⟨1, "E", none⟩] "uid" rfl

/-! ## C3: zero-length input -/

/-- C3 counterexample: on a zero-length source with a store that accepts
the completion call, the Chunker emits zero tasks, but the Session does not
bypass the multipart protocol: no whole-object put is issued (the code has
no such call), `CompleteMultipart` is invoked with the empty ETag list, and
the created multipart session is not aborted — each point refuting the
claimed degenerate path. -/
theorem emptyInputNoPutNoAbort :
    chunkReader 4 ⟨[], false⟩ 1 = [] ∧
    (UploadSeq okStore 4 ⟨[], false⟩).putCalls = 0 ∧
    (UploadSeq okStore 4 ⟨[], false⟩).completedEtags = some [] ∧
    (UploadSeq okStore 4 ⟨[], false⟩).abortCalls = 0 ∧
    (UploadSeq okStore 4 ⟨[], false⟩).completeCalls = 1 := by
  refine ⟨?_, ?_, ?_, ?_, ?_⟩ <;>
    simp [UploadSeq, UploadRun, okStore, workerResults, workerResult, uploadParts,
          collectLoop, sortParts, selectScan, chunkReader, readFull]

/-- C3 (amended): for every zero-length input the Chunker emits zero tasks,
and the Session, far from bypassing multipart, issues no whole-object put
and calls `CompleteMultipart` with the empty tag list; the already-created
remote multipart session is aborted only when that completion call fails at
the store. -/
theorem emptyInputCompletesWithEmptyList (store : Store) (partSize : Nat)
    (src : Source) (uid : String)
    (hempty : src.data = []) (hcreate : store.createMultipart = Except.ok uid) :
    chunkReader partSize src 1 = [] ∧
    (UploadSeq store partSize src).putCalls = 0 ∧
    (UploadSeq store partSize src).completedEtags = some [] ∧
    (exceptIsOk (store.completeMultipart []) = true →
      (UploadSeq store partSize src).abortCalls = 0) ∧
    (exceptIsOk (store.completeMultipart []) = false →
      (UploadSeq store partSize src).abortCalls = 1) := by
  have hch : chunkReader partSize src 1 = [] := chunkReader_empty partSize 1 src hempty
  refine ⟨hch, ?_, ?_, ?_, ?_⟩ <;>
    · unfold UploadSeq UploadRun
      rw [hch, hcreate]
      simp only [workerResults, List.map_nil]
      have hup : uploadParts ([] : List partUploadResult) = Except.ok [] := by
        simp [uploadParts, collectLoop, sortParts_nil]
      rw [hup]
      dsimp only
      cases hcm : store.completeMultipart (List.map PartETag.ETag []) <;>
        simp_all [exceptIsOk]

/-- C3 amended-claim witness: the empty source against the store whose
completion call fails — zero tasks, no put, empty completion list, and the
abort fires because completion failed. -/
theorem emptyInputCompletesWithEmptyListInstance :
    chunkReader 4 ⟨[], false⟩ 1 = [] ∧
    (UploadSeq completeFailStore 4 ⟨[], false⟩).putCalls = 0 ∧
    (UploadSeq completeFailStore 4 ⟨[], false⟩).completedEtags = some [] ∧
    (exceptIsOk (completeFailStore.completeMultipart []) = true →
      (UploadSeq completeFailStore 4 ⟨[], false⟩).abortCalls = 0) ∧
    (exceptIsOk (completeFailStore.completeMultipart []) = false →
      (UploadSeq completeFailStore 4 ⟨[], false⟩).abortCalls = 1) :=
  emptyInputCompletesWithEmptyList completeFailStore 4 ⟨[], false⟩ "uid" rfl rfl

/-! ## C4: first part failure -/

/-- C4 counterexample: with an arrival order in which the failed result
comes first followed by one more in-flight result, the collector consumes
only the first result — it breaks out of the loop instead of draining the
remaining in-flight results until all workers have reported, refuting the
drain part of the claim (and the code creates no cancellable context to
cancel: `uploadParts` hands the context of the caller through unchanged). -/
theorem collectorStopsWithoutDraining :
    (collectLoop [] 0
        [⟨1, "", some (UploadError.store "boom")⟩, ⟨2, "E", none⟩]).2.2 = 1 ∧
    ([⟨1, "", some (UploadError.store "boom")⟩, ⟨2, "E", none⟩]
        : List partUploadResult).length = 2 ∧
    (collectLoop [] 0
        [⟨1, "", some (UploadError.store "boom")⟩, ⟨2, "E", none⟩]).2.2
      ≠ ([⟨1, "", some (UploadError.store "boom")⟩, ⟨2, "E", none⟩]
        : List partUploadResult).length := by
  refine ⟨rfl, rfl, by decide⟩

/-- C4 (amended): if a part upload fails, the collector records the first
error result it observes as the terminal failure and stops reading the
result channel at that point (consuming exactly the error-free results
before it plus the failed one, rather than draining all in-flight results;
no cancellation of the shared context is triggered — none exists),
`AbortMultipart` is called, `CompleteMultipart` is not, and the error
returned to the caller wraps exactly that first observed part failure. -/
theorem firstErrorFailFast (store : Store) (uid : String)
    (pre : List partUploadResult) (r : partUploadResult)
    (post : List partUploadResult) (e : UploadError)
    (hpre : ∀ x ∈ pre, x.err = none) (hr : r.err = some e)
    (hcreate : store.createMultipart = Except.ok uid) :
    uploadParts (pre ++ r :: post) = Except.error e ∧
    (collectLoop [] 0 (pre ++ r :: post)).2.2 = pre.length + 1 ∧
    (UploadRun store (pre ++ r :: post)).result
      = Except.error (UploadError.wrapParts e) ∧
    (UploadRun store (pre ++ r :: post)).abortCalls = 1 ∧
    (UploadRun store (pre ++ r :: post)).completeCalls = 0 := by
  have hc := collectLoop_first_err pre r e post hpre hr [] 0
  have hup : uploadParts (pre ++ r :: post) = Except.error e := by
    unfold uploadParts
    rw [hc]
  refine ⟨hup, by rw [hc]; simp, ?_, ?_, ?_⟩ <;>
    · unfold UploadRun
      rw [hcreate, hup]

/-- C4 amended-claim witness: one successful result, then the failure, then
one more in-flight result. -/
theorem firstErrorFailFastInstance :
    uploadParts ([⟨1, "E", none⟩] ++ ⟨2, "", some (UploadError.store "boom")⟩
        :: [⟨3, "E", none⟩]) = Except.error (UploadError.store "boom") ∧
    (collectLoop [] 0 ([⟨1, "E", none⟩] ++ ⟨2, "", some (UploadError.store "boom")⟩
        :: [⟨3, "E", none⟩])).2.2 = [(⟨1, "E", none⟩ : partUploadResult)].length + 1 ∧
    (UploadRun okStore ([⟨1, "E", none⟩] ++ ⟨2, "", some (UploadError.store "boom")⟩
        :: [⟨3, "E", none⟩])).result
      = Except.error (UploadError.wrapParts (UploadError.store "boom")) ∧
    (UploadRun okStore ([⟨1, "E", none⟩] ++ ⟨2, "", some (UploadError.store "boom")⟩
        :: [⟨3, "E", none⟩])).abortCalls = 1 ∧
    (UploadRun okStore ([⟨1, "E", none⟩] ++ ⟨2, "", some (UploadError.store "boom")⟩
        :: [⟨3, "E", none⟩])).completeCalls = 0 :=
  firstErrorFailFast okStore "uid" [⟨1, "E", none⟩]
    ⟨2, "", some (UploadError.store "boom")⟩ [⟨3, "E", none⟩]
    (UploadError.store "boom") (by simp) rfl rfl

/-! ## C6: chunker numbering and sizes -/

theorem chunkReader_clean_unfold (S : Nat) (hS : 0 < S) (data : List UInt8) (k : Nat) :
    chunkReader S ⟨data, false⟩ k =
      if data.length = 0 then []
      else if data.length < S then [⟨k, data⟩]
      else ⟨k, data.take S⟩ :: chunkReader S ⟨data.drop S, false⟩ (k + 1) := by
  have hS0 : S ≠ 0 := Nat.pos_iff_ne_zero.mp hS
  rw [chunkReader]
  unfold readFull
  simp only
  by_cases h0 : data.length = 0
  · have hd : data = [] := List.length_eq_zero.mp h0
    subst hd
    simp [hS0]
  · have hdne : data ≠ [] := by
      intro h
      subst h
      simp at h0
    by_cases hlt : data.length < S
    · have hne : data.isEmpty = false := by cases data <;> simp_all
      simp [show ¬ S ≤ data.length from by omega, hne, hdne, h0, hlt]
    · have hlen : (data.take S).length = S := by
        simp only [List.length_take]
        omega
      have htne : data.take S ≠ [] := by
        intro h
        rw [h] at hlen
        simp at hlen
        omega
      simp [show S ≤ data.length from by omega, hlen, htne, hS0, h0, hlt]


/-- The part-size list the spec (P1) predicts for input length L and part
size S: full parts of S bytes and a final partial part, empty for L = 0.
This is the spec-side description that `chunkReader` is compared with. -/
def specPartSizes (S L : Nat) : List Nat :=
  if L = 0 then []
  else if h : 0 < S ∧ S < L then S :: specPartSizes S (L - S)
  else [L]
termination_by L
decreasing_by omega

theorem specPartSizes_zero (S : Nat) : specPartSizes S 0 = [] := by
  rw [specPartSizes]
  simp

theorem specPartSizes_small (S L : Nat) (h0 : L ≠ 0) (hle : L ≤ S) :
    specPartSizes S L = [L] := by
  rw [specPartSizes]
  rw [if_neg h0, dif_neg (by omega)]

theorem specPartSizes_step (S L : Nat) (hS : 0 < S) (hle : S ≤ L) (h0 : L ≠ 0) :
    specPartSizes S L = S :: specPartSizes S (L - S) := by
  rcases Nat.lt_or_ge S L with h | h
  · rw [specPartSizes]
    rw [if_neg h0, dif_pos ⟨hS, h⟩]
  · have hLS : L = S := by omega
    rw [hLS, specPartSizes_small S S (by omega) le_rfl, Nat.sub_self, specPartSizes_zero]

theorem specPartSizes_ne_nil (S L : Nat) (h0 : L ≠ 0) : specPartSizes S L ≠ [] := by
  rw [specPartSizes, if_neg h0]
  split <;> simp

theorem specPartSizes_length (S : Nat) (hS : 0 < S) :
    ∀ L, (specPartSizes S L).length = (L + S - 1) / S := by
  have main : ∀ n L, L ≤ n → (specPartSizes S L).length = (L + S - 1) / S := by
    intro n
    induction n with
    | zero =>
      intro L hL
      have : L = 0 := by omega
      subst this
      rw [specPartSizes_zero, List.length_nil]
      exact (Nat.div_eq_of_lt (by omega)).symm
    | succ n ih =>
      intro L hL
      by_cases h0 : L = 0
      · subst h0
        rw [specPartSizes_zero, List.length_nil]
        exact (Nat.div_eq_of_lt (by omega)).symm
      · by_cases hlt : L ≤ S
        · rw [specPartSizes_small S L h0 hlt]
          have : (L + S - 1) / S = 1 := by
            apply Nat.div_eq_of_lt_le <;> omega
          simp [this]
        · rw [specPartSizes_step S L hS (by omega) h0]
          have harg : L + S - 1 = ((L - S) + S - 1) + S := by omega
          rw [List.length_cons, ih (L - S) (by omega), harg, Nat.add_div_right _ hS]
  intro L
  exact main L L le_rfl

theorem specPartSizes_mem (S : Nat) (hS : 0 < S) :
    ∀ L, ∀ x ∈ specPartSizes S L, 0 < x ∧ x ≤ S := by
  have main : ∀ n L, L ≤ n → ∀ x ∈ specPartSizes S L, 0 < x ∧ x ≤ S := by
    intro n
    induction n with
    | zero =>
      intro L hL x hx
      have : L = 0 := by omega
      subst this
      rw [specPartSizes_zero] at hx
      simp at hx
    | succ n ih =>
      intro L hL x hx
      by_cases h0 : L = 0
      · subst h0
        rw [specPartSizes_zero] at hx
        simp at hx
      · by_cases hlt : L ≤ S
        · rw [specPartSizes_small S L h0 hlt] at hx
          simp at hx
          subst hx
          omega
        · rw [specPartSizes_step S L hS (by omega) h0] at hx
          rcases List.mem_cons.mp hx with h | h
          · subst h
            omega
          · exact ih (L - S) (by omega) x h
  intro L
  exact main L L le_rfl

theorem specPartSizes_dropLast (S : Nat) (hS : 0 < S) :
    ∀ L, ∀ x ∈ (specPartSizes S L).dropLast, x = S := by
  have main : ∀ n L, L ≤ n → ∀ x ∈ (specPartSizes S L).dropLast, x = S := by
    intro n
    induction n with
    | zero =>
      intro L hL x hx
      have : L = 0 := by omega
      subst this
      rw [specPartSizes_zero] at hx
      simp at hx
    | succ n ih =>
      intro L hL x hx
      by_cases h0 : L = 0
      · subst h0
        rw [specPartSizes_zero] at hx
        simp at hx
      · by_cases hlt : L ≤ S
        · rw [specPartSizes_small S L h0 hlt] at hx
          simp at hx
        · rw [specPartSizes_step S L hS (by omega) h0] at hx
          rcases List.eq_nil_or_concat (specPartSizes S (L - S)) with hnil | ⟨ys, y, hys⟩
          · exact absurd hnil (specPartSizes_ne_nil S (L - S) (by omega))
          · rw [hys, List.concat_eq_append] at hx
            have hx2 : x ∈ ((S :: ys) ++ [y]).dropLast := hx
            rw [List.dropLast_concat] at hx2
            rcases List.mem_cons.mp hx2 with h | h
            · exact h
            · apply ih (L - S) (by omega) x
              rw [hys, List.concat_eq_append, List.dropLast_concat]
              exact h
  intro L
  exact main L L le_rfl


theorem specPartSizes_getLast (S : Nat) (hS : 0 < S) :
    ∀ L, (specPartSizes S L).getLast? =
      if L = 0 then none else if L % S = 0 then some S else some (L % S) := by
  have main : ∀ n L, L ≤ n → (specPartSizes S L).getLast? =
      if L = 0 then none else if L % S = 0 then some S else some (L % S) := by
    intro n
    induction n with
    | zero =>
      intro L hL
      have : L = 0 := by omega
      subst this
      rw [specPartSizes_zero]
      simp
    | succ n ih =>
      intro L hL
      by_cases h0 : L = 0
      · subst h0
        rw [specPartSizes_zero]
        simp
      · by_cases hlt : L ≤ S
        · rw [specPartSizes_small S L h0 hlt, if_neg h0]
          rcases Nat.lt_or_ge L S with h | h
          · rw [if_neg (by rw [Nat.mod_eq_of_lt h]; exact h0)]
            rw [Nat.mod_eq_of_lt h]
            rfl
          · have hLS : L = S := by omega
            subst hLS
            rw [if_pos (Nat.mod_self L)]
            rfl
        · rw [specPartSizes_step S L hS (by omega) h0, if_neg h0]
          have hne := specPartSizes_ne_nil S (L - S) (by omega)
          have hmod : (L - S) % S = L % S := by
            conv_rhs => rw [← Nat.sub_add_cancel (by omega : S ≤ L)]
            rw [Nat.add_mod_right]
          cases hrest : specPartSizes S (L - S) with
          | nil => exact absurd hrest hne
          | cons b bs =>
            rw [List.getLast?_cons_cons]
            have := ih (L - S) (by omega)
            rw [hrest, if_neg (by omega), hmod] at this
            exact this
  intro L
  exact main L L le_rfl

theorem chunkReader_spec (S : Nat) (hS : 0 < S) :
    ∀ (n : Nat) (data : List UInt8), data.length ≤ n → ∀ k,
      (chunkReader S ⟨data, false⟩ k).map (fun t => t.data.length)
          = specPartSizes S data.length ∧
      (chunkReader S ⟨data, false⟩ k).map partUploadTask.partNumber
          = List.range' k (specPartSizes S data.length).length := by
  intro n
  induction n with
  | zero =>
    intro data hlen k
    have hd : data = [] := by
      cases data
      · rfl
      · simp at hlen
    subst hd
    rw [chunkReader_empty S k ⟨[], false⟩ rfl]
    simp [specPartSizes_zero]
  | succ n ih =>
    intro data hlen k
    rw [chunkReader_clean_unfold S hS data k]
    by_cases h0 : data.length = 0
    · rw [if_pos h0, h0, specPartSizes_zero]
      simp
    · by_cases hlt : data.length < S
      · rw [if_neg h0, if_pos hlt, specPartSizes_small S data.length h0 (by omega)]
        simp [List.range'_succ]
      · rw [if_neg h0, if_neg hlt, specPartSizes_step S data.length hS (by omega) h0]
        have hdrop : (data.drop S).length = data.length - S := by simp
        obtain ⟨ih1, ih2⟩ := ih (data.drop S) (by simp; omega) (k + 1)
        have htake : (data.take S).length = S := by
          simp only [List.length_take]
          omega
        constructor
        · rw [List.map_cons, ih1, hdrop, htake]
        · rw [List.map_cons, ih2, hdrop, List.length_cons, List.range'_succ]


/-- C6: for every input of length L and part size S > 0, on a cleanly
terminating stream the Chunker emits exactly ceil(L/S) tasks numbered
exactly 1..ceil(L/S) (strictly increasing from 1, no gaps), every task but
the last carries exactly S bytes, the last carries L mod S bytes when S
does not divide L (and S bytes when it does), no task is ever zero-byte,
and for L = 0 no task is emitted. -/
theorem chunkerNumberingAndSizes (S : Nat) (data : List UInt8) (hS : 0 < S) :
    (chunkReader S ⟨data, false⟩ 1).length = (data.length + S - 1) / S ∧
    (chunkReader S ⟨data, false⟩ 1).map partUploadTask.partNumber
      = List.range' 1 ((data.length + S - 1) / S) ∧
    (∀ t ∈ (chunkReader S ⟨data, false⟩ 1).dropLast, t.data.length = S) ∧
    ((chunkReader S ⟨data, false⟩ 1).map (fun t => t.data.length)).getLast?
      = (if data.length = 0 then none
         else if data.length % S = 0 then some S else some (data.length % S)) ∧
    (∀ t ∈ chunkReader S ⟨data, false⟩ 1, t.data.length ≠ 0) ∧
    (data.length = 0 → chunkReader S ⟨data, false⟩ 1 = []) := by
  obtain ⟨hsz, hpn⟩ := chunkReader_spec S hS data.length data le_rfl 1
  have hlen : (chunkReader S ⟨data, false⟩ 1).length
      = (specPartSizes S data.length).length := by
    rw [← hsz, List.length_map]
  refine ⟨?_, ?_, ?_, ?_, ?_, ?_⟩
  · rw [hlen, specPartSizes_length S hS]
  · rw [hpn, specPartSizes_length S hS]
  · intro t ht
    have hmem : t.data.length
        ∈ ((chunkReader S ⟨data, false⟩ 1).map (fun t => t.data.length)).dropLast := by
      rw [← List.map_dropLast]
      exact List.mem_map_of_mem _ ht
    rw [hsz] at hmem
    exact specPartSizes_dropLast S hS data.length _ hmem
  · rw [hsz, specPartSizes_getLast S hS]
  · intro t ht
    have hmem : t.data.length ∈ specPartSizes S data.length := by
      rw [← hsz]
      exact List.mem_map_of_mem _ ht
    have := specPartSizes_mem S hS data.length _ hmem
    omega
  · intro h0
    exact chunkReader_empty S 1 ⟨data, false⟩ (List.length_eq_zero.mp h0)

/-- C6 witness: part size 3 over a 7-byte input — three tasks numbered
1, 2, 3, the last of size 7 mod 3 = 1. -/
theorem chunkerNumberingAndSizesInstance :
    0 < 3 ∧
    (chunkReader 3 ⟨[0, 0, 0, 0, 0, 0, 0], false⟩ 1).length = 3 ∧
    (chunkReader 3 ⟨[0, 0, 0, 0, 0, 0, 0], false⟩ 1).map partUploadTask.partNumber
      = [1, 2, 3] ∧
    ((chunkReader 3 ⟨[0, 0, 0, 0, 0, 0, 0], false⟩ 1).map
        (fun t => t.data.length)).getLast? = some 1 := by
  refine ⟨by norm_num, ?_, ?_, ?_⟩
  · have h := (chunkerNumberingAndSizes 3 [0, 0, 0, 0, 0, 0, 0] (by norm_num)).1
    simpa using h
  · have h := (chunkerNumberingAndSizes 3 [0, 0, 0, 0, 0, 0, 0] (by norm_num)).2.1
    simpa [List.range'] using h
  · have h := (chunkerNumberingAndSizes 3 [0, 0, 0, 0, 0, 0, 0] (by norm_num)).2.2.2.1
    simpa using h

/-! ## C7: collector ordering under arbitrary arrival order -/

theorem selectScan_head_cons_perm (c : PartETag) (l : List PartETag) :
    ((selectScan c l).1 :: (selectScan c l).2).Perm (c :: l) := by
  induction l generalizing c with
  | nil => simp [selectScan]
  | cons y ys ih =>
    simp only [selectScan]
    split_ifs with h
    · exact (List.Perm.swap c _ _).trans ((ih y).cons c)
    · exact ((List.Perm.swap y _ _).trans ((ih c).cons y)).trans (List.Perm.swap c y ys)

theorem selectScan_min (c : PartETag) (l : List PartETag) :
    (selectScan c l).1.PartNumber ≤ c.PartNumber ∧
    ∀ z ∈ l, (selectScan c l).1.PartNumber ≤ z.PartNumber := by
  induction l generalizing c with
  | nil => simp [selectScan]
  | cons y ys ih =>
    simp only [selectScan]
    split_ifs with h <;> dsimp only
    · obtain ⟨ih1, ih2⟩ := ih y
      refine ⟨by omega, fun z hz => ?_⟩
      rcases List.mem_cons.mp hz with rfl | hz
      · exact ih1
      · exact ih2 z hz
    · obtain ⟨ih1, ih2⟩ := ih c
      refine ⟨ih1, fun z hz => ?_⟩
      rcases List.mem_cons.mp hz with rfl | hz
      · omega
      · exact ih2 z hz

theorem sortParts_perm (l : List PartETag) : (sortParts l).Perm l := by
  have main : ∀ n l, List.length l ≤ n → (sortParts l).Perm l := by
    intro n
    induction n with
    | zero =>
      intro l hl
      cases l with
      | nil => rw [sortParts_nil]
      | cons x xs => simp at hl
    | succ n ih =>
      intro l hl
      cases l with
      | nil => rw [sortParts_nil]
      | cons x xs =>
        rw [sortParts_cons]
        have hlen : (selectScan x xs).2.length = xs.length := selectScan_snd_length x xs
        have ih2 := ih (selectScan x xs).2 (by rw [hlen]; simpa using hl)
        exact (ih2.cons _).trans (selectScan_head_cons_perm x xs)
  exact main l.length l le_rfl

theorem sortParts_sorted (l : List PartETag) :
    (sortParts l).Pairwise (fun a b => a.PartNumber ≤ b.PartNumber) := by
  have main : ∀ n l, List.length l ≤ n →
      (sortParts l).Pairwise (fun a b => a.PartNumber ≤ b.PartNumber) := by
    intro n
    induction n with
    | zero =>
      intro l hl
      cases l with
      | nil => rw [sortParts_nil]; exact List.Pairwise.nil
      | cons x xs => simp at hl
    | succ n ih =>
      intro l hl
      cases l with
      | nil => rw [sortParts_nil]; exact List.Pairwise.nil
      | cons x xs =>
        rw [sortParts_cons]
        have hlen : (selectScan x xs).2.length = xs.length := selectScan_snd_length x xs
        refine List.pairwise_cons.mpr ⟨?_, ih _ (by rw [hlen]; simpa using hl)⟩
        intro z hz
        have hz2 : z ∈ (selectScan x xs).2 :=
          ((sortParts_perm (selectScan x xs).2).mem_iff).mp hz
        have hz3 : z ∈ x :: xs :=
          ((selectScan_head_cons_perm x xs).mem_iff).mp (List.mem_cons_of_mem _ hz2)
        obtain ⟨h1, h2⟩ := selectScan_min x xs
        rcases List.mem_cons.mp hz3 with rfl | hz4
        · exact h1
        · exact h2 z hz4
  exact main l.length l le_rfl


/-- The success-path part list the spec predicts for n parts with tags
given by `tag`: one entry per part number 1..n, in ascending order. -/
def canonicalParts (n : Nat) (tag : Nat → String) : List PartETag :=
  (List.range' 1 n).map (fun j => ⟨j, tag j⟩)

theorem sorted_perm_range'_eq (l : List Nat) (s n : Nat)
    (hp : l.Perm (List.range' s n)) (hs : l.Pairwise (· ≤ ·)) :
    l = List.range' s n := by
  apply List.eq_of_perm_of_sorted hp hs
  exact (List.pairwise_lt_range' s n).imp le_of_lt

theorem map_mk_of_canonical (m : List PartETag) (tag : Nat → String)
    (hform : ∀ x ∈ m, x = ⟨x.PartNumber, tag x.PartNumber⟩) :
    m = (m.map PartETag.PartNumber).map (fun j => ⟨j, tag j⟩) := by
  rw [List.map_map]
  conv_lhs => rw [← List.map_id m]
  exact List.map_congr_left (fun x hx => hform x hx)

/-- C7: on the success path, for every arrival order of the n part results
(any permutation of one result per part number 1..n), the collector hands
completion the same list: sorted ascending by part number, no gaps, one
entry per emitted chunk — the canonical list for those n parts. -/
theorem collectorOutputSortedNoGaps (n : Nat) (tag : Nat → String)
    (results : List partUploadResult)
    (hperm : results.Perm ((List.range' 1 n).map fun j => ⟨j, tag j, none⟩)) :
    uploadParts results = Except.ok (canonicalParts n tag) ∧
    (canonicalParts n tag).map PartETag.PartNumber = List.range' 1 n ∧
    (canonicalParts n tag).Pairwise (fun a b => a.PartNumber ≤ b.PartNumber) := by
  have hok : ∀ x ∈ results, x.err = none := by
    intro x hx
    have hx2 := hperm.mem_iff.mp hx
    obtain ⟨j, hj, rfl⟩ := List.mem_map.mp hx2
    rfl
  have hup : uploadParts results
      = Except.ok (sortParts (results.map (fun r => ⟨r.partNumber, r.etag⟩))) := by
    unfold uploadParts
    rw [collectLoop_all_ok results hok [] 0]
    simp
  have hmapcanon :
      ((List.range' 1 n).map fun j => (⟨j, tag j, none⟩ : partUploadResult)).map
          (fun r => (⟨r.partNumber, r.etag⟩ : PartETag))
        = canonicalParts n tag := by
    rw [List.map_map]
    rfl
  have hm : (results.map (fun r => (⟨r.partNumber, r.etag⟩ : PartETag))).Perm
      (canonicalParts n tag) := by
    have := hperm.map (fun r => (⟨r.partNumber, r.etag⟩ : PartETag))
    rwa [hmapcanon] at this
  set m := sortParts (results.map (fun r => (⟨r.partNumber, r.etag⟩ : PartETag))) with hmdef
  have hmc : m.Perm (canonicalParts n tag) :=
    (sortParts_perm _).trans hm
  have hform : ∀ x ∈ m, x = ⟨x.PartNumber, tag x.PartNumber⟩ := by
    intro x hx
    have := hmc.mem_iff.mp hx
    obtain ⟨j, hj, rfl⟩ := List.mem_map.mp this
    rfl
  have hcanonpn : (canonicalParts n tag).map PartETag.PartNumber = List.range' 1 n := by
    unfold canonicalParts
    rw [List.map_map]
    have hid : (PartETag.PartNumber ∘ fun j => (⟨j, tag j⟩ : PartETag)) = id := rfl
    rw [hid, List.map_id]
  have hpnperm : (m.map PartETag.PartNumber).Perm (List.range' 1 n) := by
    have := hmc.map PartETag.PartNumber
    rwa [hcanonpn] at this
  have hpnsorted : (m.map PartETag.PartNumber).Pairwise (· ≤ ·) :=
    List.pairwise_map.mpr (sortParts_sorted _)
  have hpneq : m.map PartETag.PartNumber = List.range' 1 n :=
    sorted_perm_range'_eq _ 1 n hpnperm hpnsorted
  have hmeq : m = canonicalParts n tag := by
    rw [map_mk_of_canonical m tag hform, hpneq]
    rfl
  refine ⟨by rw [hup, hmeq], hcanonpn, ?_⟩
  apply List.pairwise_map.mpr
  exact ((List.pairwise_lt_range' 1 n).imp le_of_lt : List.Pairwise _ _)


/-- C7 witness: results for parts 1..3 arriving in the order 3, 1, 2 are
collected and sorted into the ascending list. -/
theorem collectorOutputSortedNoGapsInstance :
    uploadParts [⟨3, "e", none⟩, ⟨1, "e", none⟩, ⟨2, "e", none⟩]
      = Except.ok [⟨1, "e"⟩, ⟨2, "e"⟩, ⟨3, "e"⟩] ∧
    ([(⟨1, "e"⟩ : PartETag), ⟨2, "e"⟩, ⟨3, "e"⟩]).map PartETag.PartNumber
      = [1, 2, 3] := by
  have h := collectorOutputSortedNoGaps 3 (fun _ => "e")
      [⟨3, "e", none⟩, ⟨1, "e", none⟩, ⟨2, "e", none⟩] (by decide)
  constructor
  · have h1 := h.1
    simpa [canonicalParts, List.range'] using h1
  · have h2 := h.2.1
    simpa [canonicalParts, List.range'] using h2

end Storagex
